import Mathlib

/-!
Shallow embedding of the `conf` Go package (github.com/rsb/conf): annotation
parsing (tag.go), field discovery and key derivation (field.go), and the
environment-based value resolver and type decoder (conf.go, field.go).

Go strings are modelled as `List Char` (runes).  The Go `unicode` class
predicates, `strings.ToUpper` and `strings.TrimSpace` are modelled on the
ASCII range, where they agree with Lean's `Char` operations; every input in
this development is ASCII.  Errors from the `failure` package are modelled as
their formatted messages (`failure.Wrap` prefixes `"msg: "` to the cause).
-/

set_option maxRecDepth 8192

namespace Conf

/-- Convert a Lean string literal to the Go-string model. -/
def gs (s : String) : List Char := s.toList

/-- Error values, modelled as their rendered message. -/
abbrev GErr := List Char

/-- `failure.Wrap(err, msg)`: the wrapped message is `msg ++ ": " ++ cause`. -/
def wrapMsg (msg e : GErr) : GErr := msg ++ gs ": " ++ e

/-! ### Go `strings` primitives -/

/-- `strings.Split(s, sep)` for a one-rune separator. -/
def splitChar (sep : Char) : List Char → List (List Char)
  | [] => [[]]
  | c :: cs =>
    match splitChar sep cs with
    | [] => [[c]]
    | h :: t => if c = sep then [] :: h :: t else (c :: h) :: t

/-- `strings.Join(parts, sep)` for a one-rune separator. -/
def intercalateChar (sep : Char) : List (List Char) → List Char
  | [] => []
  | [x] => x
  | x :: y :: t => x ++ sep :: intercalateChar sep (y :: t)

/-- `strings.SplitN(s, sep, 2)` for a one-rune separator. -/
def splitN2 (sep : Char) (s : List Char) : List (List Char) :=
  match s.dropWhile (· ≠ sep) with
  | [] => [s.takeWhile (· ≠ sep)]
  | _ :: rest => [s.takeWhile (· ≠ sep), rest]

/-- `unicode.IsSpace` on the ASCII range (the inputs we model are ASCII). -/
def isGoSpace (c : Char) : Bool :=
  c = ' ' || c = '\t' || c = '\n' || c = '\x0b' || c = '\x0c' || c = '\r'

def trimLeftP (p : Char → Bool) (s : List Char) : List Char := s.dropWhile p

def trimRightP (p : Char → Bool) (s : List Char) : List Char :=
  (s.reverse.dropWhile p).reverse

/-- `strings.TrimSpace`. -/
def trimSpace (s : List Char) : List Char :=
  trimRightP isGoSpace (trimLeftP isGoSpace s)

/-- `strings.Trim(s, cutset)` for a one-rune cutset. -/
def trimCharBoth (c : Char) (s : List Char) : List Char :=
  trimRightP (· = c) (trimLeftP (· = c) s)

/-- `strings.ToUpper` (ASCII range). -/
def toUpperG (s : List Char) : List Char := s.map Char.toUpper

/-- `strings.Replace(s, old, new, -1)` for one-rune old and new. -/
def replaceChar (a b : Char) (s : List Char) : List Char :=
  s.map (fun c => if c = a then b else c)

/-- `strings.Contains(hay, needle)`. -/
def containsSub (needle hay : List Char) : Bool := decide (needle <:+: hay)

instance {ε α : Type} [DecidableEq ε] [DecidableEq α] : DecidableEq (Except ε α) := fun x y =>
  match x, y with
  | .ok a, .ok b => decidable_of_iff (a = b) (by simp)
  | .error a, .error b => decidable_of_iff (a = b) (by simp)
  | .ok _, .error _ => isFalse (by simp)
  | .error _, .ok _ => isFalse (by simp)

/-! ### tag.go: the annotation (Options) parser -/

/-- The parsed `conf` annotation (`Tag` in tag.go).

The fields `PStoreVar`, `CLIFlag`, `CLIShort`, `CLIUsage` and `GlobalFlag` are
modelled from the spec: they are the backend-specific overrides of §3
(explicit external-store path, CLI flag name/shorthand/usage, global-flag
marker) that conf.go consumes through the accessors `ParamStoreKey`,
`CLIFlag`, `IsGlobalParamStore` and `BindName`, whose defining code is not
part of src/tag.go; the `ParseTag` in src/tag.go never sets them. -/
structure Tag where
  EnvVar : List Char := []
  Default : List Char := []
  IsDefault : Bool := false
  NoPrint : Bool := false
  /-- `NoPrefix` in the source. -/
  NoPfx : Bool := false
  Required : Bool := false
  Mask : Bool := false
  PStoreVar : List Char := []
  CLIFlagV : List Char := []
  CLIShortV : List Char := []
  CLIUsageV : List Char := []
  GlobalFlag : Bool := false
deriving Repr, DecidableEq

/-- `failure.Config("tag (%q) missing a value", property)`. -/
def tagMissingValueMsg (property : List Char) : GErr :=
  gs "tag (\"" ++ property ++ gs "\") missing a value"

def isDefaultValueMapOrList (value : List Char) : Bool :=
  containsSub (gs "map(") value || containsSub (gs "list(") value

/-- Scan for the first `')'` (the regex `.` does not cross a newline);
returns the content before it and the remainder after it. -/
def takeToClose : List Char → Option (List Char × List Char)
  | [] => none
  | c :: rest =>
    if c = ')' then some ([], rest)
    else if c = '\n' then none
    else
      match takeToClose rest with
      | some (content, after) => some (c :: content, after)
      | none => none

/-- All matches of the regex `\((.*?)\)` (`regexp.FindAllString`), with the
surrounding parentheses included as in the Go match strings.  The `fuel`
argument only makes the recursion structural (so the kernel can evaluate it);
since each step consumes at least one character, `fuel = s.length` never runs
out (`takeToClose_length`). -/
def parenMatchesF : Nat → List Char → List (List Char)
  | 0, _ => []
  | _ + 1, [] => []
  | fuel + 1, c :: rest =>
    if c = '(' then
      match takeToClose rest with
      | some (content, after) => ('(' :: content ++ [')']) :: parenMatchesF fuel after
      | none => parenMatchesF fuel rest
    else parenMatchesF fuel rest

def parenMatches (s : List Char) : List (List Char) := parenMatchesF s.length s

/-- `normalizeDefaultValueMapOrList` from tag.go.  (In Go an empty `value`
would panic on the last-character slice; the only caller guarantees
non-emptiness, and the model reports the syntax error there instead.) -/
def normalizeDefaultValueMapOrList (value : List Char) : Except GErr (List Char) :=
  match value.getLast? with
  | some ')' =>
    let v := (parenMatches value).foldl
      (fun _ elem => trimCharBoth ')' (trimCharBoth '(' elem)) value
    .ok (replaceChar ';' ',' (replaceChar '|' ':' v))
  | _ => .error (gs "tag (default) invalid list or map syntax")

/-- One iteration of the `ParseTag` loop body over a comma-separated part. -/
def parseTagStep (tag : Tag) (part : List Char) : Except GErr Tag :=
  match splitN2 ':' part with
  | [property] =>
    if property = gs "no-print" then .ok { tag with NoPrint := true }
    else if property = gs "no-prefix" then .ok { tag with NoPfx := true }
    else if property = gs "required" then .ok { tag with Required := true }
    else if property = gs "mask" then .ok { tag with Mask := true }
    else .ok tag
  | [property, rawValue] =>
    let value := trimSpace rawValue
    if value = [] then .error (tagMissingValueMsg property)
    else if property = gs "default" then
      if isDefaultValueMapOrList value then
        match normalizeDefaultValueMapOrList value with
        | .error e => .error (wrapMsg (gs "normalizeDefaultValueMapOrList failed") e)
        | .ok v => .ok { tag with IsDefault := true, Default := v }
      else .ok { tag with IsDefault := true, Default := value }
    else if property = gs "env" then .ok { tag with EnvVar := value }
    else .ok tag
  | _ => .ok tag

/-- `ParseTag` from tag.go. -/
def ParseTag (t : List Char) : Except GErr Tag :=
  if t = [] then .ok {} else (splitChar ',' t).foldlM parseTagStep {}

/-! ### field.go: camel-case segmentation -/

def classLower : Nat := 0
def classUpper : Nat := 1
def classNumber : Nat := 2
def classOther : Nat := 3

/-- `charClass` from field.go (ASCII range of the `unicode` predicates). -/
def charClass (r : Char) : Nat :=
  if r.isLower then classLower
  else if r.isUpper then classUpper
  else if r.isDigit then classNumber
  else classOther

/-- `runes[a:b]`. -/
def sliceL (runes : List Char) (a b : Nat) : List Char := (runes.drop a).take (b - a)

/-- The loop body of `CamelSplit`, iterating over the indexed runes with the
running `lastClass`, `lastIdx` and output segments. -/
def camelIter (runes : List Char) :
    List (Nat × Char) → Nat → Nat → List (List Char) → List (List Char)
  | [], _, _, out => out
  | (i, r) :: rest, lastClass, lastIdx, out =>
    let cls := charClass r
    let step :=
      if cls ≠ lastClass then
        if lastClass = classUpper ∧ cls ≠ classNumber then
          if i - lastIdx > 1 then (out ++ [sliceL runes lastIdx (i - 1)], i - 1)
          else (out, lastIdx)
        else (out ++ [sliceL runes lastIdx i], i)
      else (out, lastIdx)
    let out2 := if i = runes.length - 1 then step.1 ++ [runes.drop step.2] else step.1
    camelIter runes rest cls step.2 out2

/-- `CamelSplit` from field.go. -/
def CamelSplit (src : List Char) : List (List Char) :=
  match src with
  | [] => []
  | c :: rest =>
    if (c :: rest).length < 2 then [c :: rest]
    else camelIter (c :: rest) ((c :: rest).enum) (charClass c) 0 []

/-! ### field.go: fields and key derivation -/

/-- Destination kinds handled by the built-in part of `ProcessField`.  The
model covers the string, bool, slice, map and pointer arms of the source's
switch; the numeric, duration and byte-slice arms and the custom
decode/set/unmarshal capabilities fall outside the modelled kinds. -/
inductive Ty where
  | tstr
  | tbool
  | tslice (elem : Ty)
  | tmap (key value : Ty)
  | tptr (elem : Ty)
deriving Repr, DecidableEq

/-- Destination storage values for the modelled kinds. -/
inductive Val where
  | vstr (s : List Char)
  | vbool (b : Bool)
  | vslice (elems : List Val)
  | vmap (entries : List (Val × Val))
  | vptr (pointee : Option Val)
deriving Repr

/-- The Go zero value of each modelled kind (`reflect.New(typ).Elem()`). -/
def zeroVal : Ty → Val
  | .tstr => .vstr []
  | .tbool => .vbool false
  | .tslice _ => .vslice []
  | .tmap _ _ => .vmap []
  | .tptr _ => .vptr none

/-- `Field` from field.go (the reflect value and struct tag carried by the
source are modelled separately: destinations are slots in the resolver's
store, and the raw tag has already been parsed into `Tag`). -/
structure Field where
  Name : List Char
  EnvKey : List (List Char)
  envVar : List Char
  Tag : Tag
deriving Repr, DecidableEq

def Field.EnvVariable (f : Field) : List Char := f.envVar
def Field.IsRequired (f : Field) : Bool := f.Tag.Required
def Field.IsDefault (f : Field) : Bool := f.Tag.IsDefault
def Field.DefaultValue (f : Field) : List Char := f.Tag.Default
/-- Modelled from the spec: accessor for the explicit external-store path of
§3/§6, consumed by `PStoreKey`; its defining code is not in src/field.go. -/
def Field.ParamStoreKey (f : Field) : List Char := f.Tag.PStoreVar
/-- Modelled from the spec: marker for the shared/global parameter-store
path; its defining code is not in src/field.go. -/
def Field.IsGlobalParamStore (f : Field) : Bool := f.Tag.GlobalFlag
/-- Modelled from the spec: explicit CLI flag name of §3/§6. -/
def Field.CLIFlagName (f : Field) : List Char := f.Tag.CLIFlagV
/-- Modelled from the spec: the registration/bind identifier the CLI and
config-file backends are keyed by; its defining code is not in src/. -/
def Field.BindName (f : Field) : List Char := f.Tag.CLIFlagV

/-- `NewField` from field.go. -/
def NewField (name : List Char) (fieldKey : List (List Char)) (opts : Tag) : Field :=
  let envKey :=
    if opts.EnvVar ≠ [] then
      if opts.NoPfx then splitChar '_' opts.EnvVar
      else fieldKey.headD [] :: splitChar '_' opts.EnvVar
    else fieldKey
  { Name := name
    EnvKey := envKey
    envVar := toUpperG (intercalateChar '_' envKey)
    Tag := opts }

mutual
/-- The static shape of a caller-supplied Go value for field discovery:
a leaf of a decodable kind, a struct (with a flag recording whether the
struct type exposes one of the custom decode/set/unmarshal capabilities),
or a pointer.  Nil struct pointers are materialized by the source before
descending, so the static shape determines discovery. -/
inductive MType where
  | leaf (ty : Ty)
  | strct (custom : Bool) (ms : Members)
  | ptrTo (t : MType)

/-- The declared members of a struct, in declaration order: name, raw
`conf` tag string, CanSet (exported), and type. -/
inductive Members where
  | nil
  | cons (fname ftag : List Char) (canSet : Bool) (fty : MType) (rest : Members)
end

def InvalidSpecFailureMsg : GErr := gs "specification must be a struct pointer"

mutual
/-- The member loop of `Fields` from field.go. -/
def fieldsGo (pfx : List (List Char)) : Members → Except GErr (List Field)
  | .nil => .ok []
  | .cons fname ftag canSet fty rest =>
    if !canSet || ftag = gs "-" then fieldsGo pfx rest
    else
      match ParseTag ftag with
      | .error e => .error (wrapMsg (gs "parseTag failed (" ++ fname ++ gs ")") e)
      | .ok opts =>
        match memberFields pfx fname opts (pfx ++ CamelSplit fname) fty with
        | .error e => .error e
        | .ok emitted =>
          match fieldsGo pfx rest with
          | .error e => .error e
          | .ok fs => .ok (emitted ++ fs)

/-- Handling of one (possibly pointer-chained) member: dereference pointers,
descend into plain structs (wrapping an inner failure), and emit a leaf
`Field` otherwise. -/
def memberFields (pfx : List (List Char)) (fname : List Char) (opts : Tag)
    (fieldKey : List (List Char)) : MType → Except GErr (List Field)
  | .ptrTo t => memberFields pfx fname opts fieldKey t
  | .strct custom ms =>
    if custom then .ok [NewField fname fieldKey opts]
    else
      match fieldsGo fieldKey ms with
      | .error e => .error (wrapMsg (gs "Collect failed for embedded struct") e)
      | .ok inner => .ok inner
  | .leaf _ => .ok [NewField fname fieldKey opts]
end

/-- `Fields` from field.go: the input must be a pointer to a struct. -/
def Fields (spec : MType) (pfxParam : List (List Char)) : Except GErr (List Field) :=
  match spec with
  | .ptrTo (.strct _ ms) => fieldsGo pfxParam ms
  | _ => .error InvalidSpecFailureMsg

/-! ### field.go: ProcessField, the built-in type decoder -/

mutual
/-- Equality of stored values (Go map-key equality for the modelled kinds). -/
def valBeq : Val → Val → Bool
  | .vstr a, .vstr b => a == b
  | .vbool a, .vbool b => a == b
  | .vslice a, .vslice b => valListBeq a b
  | .vmap a, .vmap b => valPairsBeq a b
  | .vptr none, .vptr none => true
  | .vptr (some a), .vptr (some b) => valBeq a b
  | _, _ => false

def valListBeq : List Val → List Val → Bool
  | [], [] => true
  | a :: as', b :: bs' => valBeq a b && valListBeq as' bs'
  | _, _ => false

def valPairsBeq : List (Val × Val) → List (Val × Val) → Bool
  | [], [] => true
  | (k1, v1) :: as', (k2, v2) :: bs' => valBeq k1 k2 && valBeq v1 v2 && valPairsBeq as' bs'
  | _, _ => false
end

/-- `reflect` `SetMapIndex`: set a key's value, overwriting an existing key. -/
def mapSet (entries : List (Val × Val)) (k v : Val) : List (Val × Val) :=
  match entries with
  | [] => [(k, v)]
  | (k0, v0) :: rest => if valBeq k0 k then (k0, v) :: rest else (k0, v0) :: mapSet rest k v

/-- `strconv.ParseBool`. -/
def parseBool (s : List Char) : Option Bool :=
  if s = gs "1" || s = gs "t" || s = gs "T" || s = gs "TRUE" || s = gs "true" || s = gs "True" then
    some true
  else if s = gs "0" || s = gs "f" || s = gs "F" || s = gs "FALSE" || s = gs "false" || s = gs "False" then
    some false
  else none

/-- Decimal rendering of a natural number (for `%d`); the fuel argument only
makes the recursion structural and `n + 1` digits always suffice. -/
def natToCharsAux : Nat → Nat → List Char → List Char
  | 0, _, acc => acc
  | fuel + 1, n, acc =>
    let d := Char.ofNat (48 + n % 10)
    if n < 10 then d :: acc else natToCharsAux fuel (n / 10) (d :: acc)

def natToChars (n : Nat) : List Char := natToCharsAux (n + 1) n []

/-- The slice-element loop of `ProcessField` (`sl.Index(i)` starts out as the
element type's zero value). -/
def decodeElems (dec : List Char → Val → Except GErr Val) (z : Val) :
    Nat → List (List Char) → Except GErr (List Val)
  | _, [] => .ok []
  | i, v :: rest =>
    match dec v z with
    | .error e => .error (wrapMsg (gs "processField failed at (" ++ natToChars i ++ gs ")") e)
    | .ok w =>
      match decodeElems dec z (i + 1) rest with
      | .error e => .error e
      | .ok ws => .ok (w :: ws)

/-- The map-pair loop of `ProcessField`: split each pair on `:`, require
exactly two parts, decode both sides into fresh zero values, and set the
entry. -/
def decodePairs (kDec vDec : List Char → Val → Except GErr Val) (kz vz : Val)
    (acc : List (Val × Val)) : List (List Char) → Except GErr (List (Val × Val))
  | [] => .ok acc
  | pair :: rest =>
    match splitChar ':' pair with
    | [k, v] =>
      match kDec k kz with
      | .error e =>
        .error (wrapMsg (gs "processField failed for key (pair: \"" ++ pair ++ gs "\") ") e)
      | .ok kv =>
        match vDec v vz with
        | .error e =>
          .error (wrapMsg (gs "processField failed for value (pair: \"" ++ pair ++ gs "\")") e)
        | .ok vv => decodePairs kDec vDec kz vz (mapSet acc kv vv) rest
    | _ => .error (gs "invalid map item: (pair: \"" ++ pair ++ gs "\")")

/-- `ProcessField` from field.go on the modelled kinds.  The source function
is one body: first a one-level pointer dereference (allocating a zero pointee
when the destination holds nil), then a switch on the (dereferenced) kind; a
pointer kind reaching the switch — a pointer-to-pointer destination — matches
no arm and is a no-op.  The Bool phase argument encodes the position in that
body: `true` is the function entry (dereference still to be applied), `false`
is the switch.  Slice elements and map keys/values recurse through the full
function (`true` phase), as the source recurses through `ProcessField`. -/
def processFieldAux : Bool → Ty → List Char → Val → Except GErr Val
  | true, .tptr t, value, old =>
    let oldElem :=
      match old with
      | .vptr (some p) => p
      | _ => zeroVal t
    match processFieldAux false t value oldElem with
    | .error e => .error e
    | .ok v => .ok (.vptr (some v))
  | false, .tptr _, _, old => .ok old
  | _, .tstr, value, _ => .ok (.vstr value)
  | _, .tbool, value, _ =>
    match parseBool value with
    | some b => .ok (.vbool b)
    | none => .error (gs "strconv.ParseBool failed")
  | _, .tslice elemTy, value, _ =>
    if trimSpace value = [] then .ok (.vslice [])
    else
      match decodeElems (fun v o => processFieldAux true elemTy v o) (zeroVal elemTy) 0
          (splitChar ',' value) with
      | .error e => .error e
      | .ok ws => .ok (.vslice ws)
  | _, .tmap keyTy valTy, value, _ =>
    if trimSpace value = [] then .ok (.vmap [])
    else
      match decodePairs (fun v o => processFieldAux true keyTy v o)
          (fun v o => processFieldAux true valTy v o)
          (zeroVal keyTy) (zeroVal valTy) [] (splitChar ',' value) with
      | .error e => .error e
      | .ok entries => .ok (.vmap entries)

/-- `ProcessField` from field.go: the entry phase of `processFieldAux`. -/
def ProcessField (value : List Char) (ty : Ty) (old : Val) : Except GErr Val :=
  processFieldAux true ty value old

/-! ### conf.go: the environment value resolver -/

/-- One discovered field together with its destination: the kind of the
destination storage and its current value (the `ReflectValue` the source
mutates in place). -/
structure Slot where
  fld : Field
  ty : Ty
  val : Val

/-- `failure.System("env: is required but empty for (%s)", name)`. -/
def emptyEnvMsg (name : List Char) : GErr :=
  gs "env: is required but empty for (" ++ name ++ gs ")"

/-- `failure.Config("required key (%s,%s) missing value", name, env)`. -/
def missingRequiredMsg (name env : List Char) : GErr :=
  gs "required key (" ++ name ++ gs "," ++ env ++ gs ") missing value"

/-- The per-field loop of `ProcessEnv` from conf.go, with the process
environment abstracted as `env` (`os.LookupEnv`) and the destinations as
slots.  Returns the final destination values in field order. -/
def ProcessEnvFields (env : List Char → Option (List Char)) :
    List Slot → Except GErr (List Val)
  | [] => .ok []
  | s :: rest =>
    let envName := s.fld.EnvVariable
    if envName = [] then .error (emptyEnvMsg s.fld.Name)
    else
      match env envName with
      | some value =>
        match ProcessField value s.ty s.val with
        | .error e => .error (wrapMsg (gs "ProcessField failed (" ++ s.fld.Name ++ gs ")") e)
        | .ok v =>
          match ProcessEnvFields env rest with
          | .error e => .error e
          | .ok vs => .ok (v :: vs)
      | none =>
        if s.fld.IsDefault then
          match ProcessField s.fld.DefaultValue s.ty s.val with
          | .error e => .error (wrapMsg (gs "ProcessField failed (" ++ s.fld.Name ++ gs ")") e)
          | .ok v =>
            match ProcessEnvFields env rest with
            | .error e => .error e
            | .ok vs => .ok (v :: vs)
        else if s.fld.IsRequired then .error (missingRequiredMsg s.fld.Name envName)
        else
          match ProcessEnvFields env rest with
          | .error e => .error e
          | .ok vs => .ok (s.val :: vs)

/-! ### conf.go: the CLI value resolver -/

/-- The external sources consulted by `ProcessCLI`: the cobra flag set
(rendered flag value and its `Changed` marker), the process environment, and
viper config-file entries already reduced to a canonical string by
`fromViper`. -/
structure CLISources where
  flagLookup : List Char → Option (List Char × Bool)
  envLookup : List Char → Option (List Char)
  viperGet : List Char → Option (List Char)

/-- The value-selection chain of `ProcessCLI`: an explicitly changed,
non-empty CLI flag wins; otherwise the environment (or, for `env:-` or a
missing entry, the config file); an empty env annotation selects nothing. -/
def cliSelectValue (src : CLISources) (f : Field) : List Char :=
  let env := f.EnvVariable
  let flag := f.CLIFlagName
  let flagID := f.BindName
  let flagHit :=
    match src.flagLookup flag with
    | some (fv, changed) => if flag ≠ [] ∧ fv ≠ [] ∧ changed then some fv else none
    | none => none
  match flagHit with
  | some fv => fv
  | none =>
    if env ≠ [] then
      if env ≠ gs "-" then
        match src.envLookup env with
        | some v => v
        | none => (src.viperGet flagID).getD []
      else (src.viperGet flagID).getD []
    else []

/-- `failure.Config("required key (field:%s,env:%s,cli:%s) missing value", ...)`. -/
def missingRequiredCLIMsg (name env flag : List Char) : GErr :=
  gs "required key (field:" ++ name ++ gs ",env:" ++ env ++ gs ",cli:" ++ flag ++
    gs ") missing value"

/-- One iteration of the `ProcessCLI` loop: the failures it appends to the
multi-error and the final value of the field's destination. -/
def processCLIOne (src : CLISources) (s : Slot) : List GErr × Val :=
  let env := s.fld.EnvVariable
  let flag := s.fld.CLIFlagName
  let value := cliSelectValue src s.fld
  if value = [] ∧ ¬s.fld.IsDefault ∧ s.fld.IsRequired then
    ([missingRequiredCLIMsg s.fld.Name env flag], s.val)
  else
    let value := if value = [] ∧ s.fld.IsDefault then s.fld.DefaultValue else value
    match ProcessField value s.ty s.val with
    | .error e => ([wrapMsg (gs "ProcessField failed (" ++ s.fld.Name ++ gs ")") e], s.val)
    | .ok v => ([], v)

/-- The per-field loop of `ProcessCLI` from conf.go: failures are aggregated
(`failure.Append`) while the remaining fields are still processed.  Returns
the collected failures in order and the final destination values. -/
def ProcessCLIFields (src : CLISources) : List Slot → List GErr × List Val
  | [] => ([], [])
  | s :: rest =>
    let head := processCLIOne src s
    let tail := ProcessCLIFields src rest
    (head.1 ++ tail.1, head.2 :: tail.2)

/-! ### conf.go: enumeration and collection operations -/

/-- `excludedVars` from conf.go. -/
def excludedVars : List (List Char) :=
  [gs "APP_NAME", gs "AWS_PROFILE", gs "AWS_REGION", gs "AWS_LAMBDA_FUNCTION_NAME"]

/-- `PStoreKey` from conf.go. -/
def PStoreKey (f : Field) (appTitle env : List Char) : List Char :=
  let pkey := f.ParamStoreKey
  if pkey ≠ [] then pkey
  else if f.IsGlobalParamStore then gs "/global/" ++ env
  else gs "/" ++ appTitle ++ gs "/" ++ env

/-- String-keyed map assignment (`result[key] = value` on a Go map). -/
def strMapSet (entries : List (List Char × List Char)) (k v : List Char) :
    List (List Char × List Char) :=
  match entries with
  | [] => [(k, v)]
  | (k0, v0) :: rest => if k0 = k then (k0, v) :: rest else (k0, v0) :: strMapSet rest k v

def strMapLookup (entries : List (List Char × List Char)) (k : List Char) :
    Option (List Char) :=
  match entries with
  | [] => none
  | (k0, v0) :: rest => if k0 = k then some v0 else strMapLookup rest k

/-- The field loop of `EnvNames` from conf.go. -/
def EnvNames : List Field → List (List Char)
  | [] => []
  | f :: rest =>
    let env := f.EnvVariable
    if env = gs "-" then EnvNames rest
    else if env ∈ excludedVars then EnvNames rest
    else env :: EnvNames rest

/-- The field loop of `EnvToMap` from conf.go, accumulating the result map. -/
def envToMapGo (env : List Char → Option (List Char))
    (acc : List (List Char × List Char)) :
    List Field → Except GErr (List (List Char × List Char))
  | [] => .ok acc
  | f :: rest =>
    let e := f.EnvVariable
    if e = gs "-" then envToMapGo env acc rest
    else if e ∈ excludedVars then envToMapGo env acc rest
    else if e = [] then .error (emptyEnvMsg f.Name)
    else
      match env e with
      | some value => envToMapGo env (strMapSet acc e value) rest
      | none =>
        if f.IsDefault then envToMapGo env (strMapSet acc e f.DefaultValue) rest
        else if f.IsRequired then .error (missingRequiredMsg f.Name e)
        else envToMapGo env (strMapSet acc e []) rest

/-- `EnvToMap` from conf.go over a discovered field sequence. -/
def EnvToMap (env : List Char → Option (List Char)) (fields : List Field) :
    Except GErr (List (List Char × List Char)) :=
  envToMapGo env [] fields

/-- The field loop of `CollectParamsFromEnv` from conf.go. -/
def collectParamsGo (appTitle : List Char) (env : List Char → Option (List Char))
    (skipDefaults : Bool) (acc : List (List Char × List Char)) :
    List Field → Except GErr (List (List Char × List Char))
  | [] => .ok acc
  | f :: rest =>
    let e := f.EnvVariable
    let key := PStoreKey f appTitle e
    if e = gs "-" ∨ key = gs "-" then collectParamsGo appTitle env skipDefaults acc rest
    else if e = [] then .error (emptyEnvMsg f.Name)
    else if e ∈ excludedVars then collectParamsGo appTitle env skipDefaults acc rest
    else
      match env e with
      | some value => collectParamsGo appTitle env skipDefaults (strMapSet acc key value) rest
      | none =>
        if f.IsDefault then
          if skipDefaults then collectParamsGo appTitle env skipDefaults acc rest
          else collectParamsGo appTitle env skipDefaults (strMapSet acc key f.DefaultValue) rest
        else if f.IsRequired then .error (missingRequiredMsg f.Name e)
        else collectParamsGo appTitle env skipDefaults (strMapSet acc key []) rest

/-- `CollectParamsFromEnv` from conf.go over a discovered field sequence. -/
def CollectParamsFromEnv (appTitle : List Char) (env : List Char → Option (List Char))
    (skipDefaults : Bool) (fields : List Field) :
    Except GErr (List (List Char × List Char)) :=
  if appTitle = [] then .error (gs "appTitle is empty")
  else collectParamsGo appTitle env skipDefaults [] fields

/-! ### Statement-side definitions used by the claims -/

/-- Split a string at the first occurrence of `sep` into the part before and
the part after it. -/
def splitAtFirst (sep : Char) (s : List Char) : List Char × List Char :=
  (s.takeWhile (· ≠ sep), (s.dropWhile (· ≠ sep)).drop 1)

/-- Decoder for mapping destinations transcribed from the spec's words
(§4.5): an empty or whitespace-only raw value yields an empty mapping;
otherwise the raw value is split on `,` into pairs, each pair is split on its
first `:` into key and value substrings (a pair without exactly one `:`
separator is a decode failure), and each side is recursively decoded into the
mapping's key and value types.  To be compared with the engine's
`ProcessField` on a mapping destination. -/
def specMapPairsDecode (keyTy valTy : Ty) (acc : List (Val × Val)) :
    List (List Char) → Except Unit (List (Val × Val))
  | [] => .ok acc
  | pair :: rest =>
    if pair.count ':' = 1 then
      let kv := splitAtFirst ':' pair
      match ProcessField kv.1 keyTy (zeroVal keyTy) with
      | .error _ => .error ()
      | .ok k =>
        match ProcessField kv.2 valTy (zeroVal valTy) with
        | .error _ => .error ()
        | .ok v => specMapPairsDecode keyTy valTy (mapSet acc k v) rest
    else .error ()

/-- See `specMapPairsDecode`. -/
def specMapDecode (keyTy valTy : Ty) (raw : List Char) : Except Unit Val :=
  if trimSpace raw = [] then .ok (.vmap [])
  else
    match specMapPairsDecode keyTy valTy [] (splitChar ',' raw) with
    | .error e => .error e
    | .ok entries => .ok (.vmap entries)

/-- Two decode results agree when both fail, or both succeed with the same
stored value (error payloads are not compared). -/
def sameOutcome (x : Except GErr Val) (y : Except Unit Val) : Prop :=
  match x, y with
  | .ok a, .ok b => a = b
  | .error _, .error _ => True
  | _, _ => False

/-- Same list of fields and destination kinds, with the destination values
replaced by the given ones (the state after a resolution pass). -/
def reassign (slots : List Slot) (vs : List Val) : List Slot :=
  List.zipWith (fun s v => { s with val := v }) slots vs

/-- The field sequence with the excluded-variable fields removed. -/
def dropExcluded (fields : List Field) : List Field :=
  fields.filter (fun f => decide (f.EnvVariable ∉ excludedVars))

/-! ### Concrete fixtures used by witnesses and counterexamples -/

/-- An environment with no entries, for witnesses. -/
def envNone : List Char → Option (List Char) := fun _ => none

/-- The field of the spec's scenario `env:MY_FIELD,required`, for witnesses. -/
def fw5 : Field :=
  { Name := gs "Foo", EnvKey := [gs "MY_FIELD"], envVar := gs "MY_FIELD",
    Tag := { EnvVar := gs "MY_FIELD", Required := true } }

/-- The keyed backend of the C2 counterexample: key `K` is present with the
empty string as its value. -/
def envEmptyK : List Char → Option (List Char) :=
  fun k => if k = gs "K" then some [] else none

/-- A string field on env key `K` declaring the default `d`. -/
def fw2 : Field :=
  { Name := gs "A", EnvKey := [gs "K"], envVar := gs "K",
    Tag := { EnvVar := gs "K", IsDefault := true, Default := gs "d" } }

/-- The CLI sources of the C2 witness: no flags, env key `K` present and
empty, no config file. -/
def srcW2 : CLISources :=
  { flagLookup := fun _ => none
    envLookup := envEmptyK
    viperGet := fun _ => none }

/-- The environment of the C9 witness: key `K` holds `x`. -/
def envW9 : List Char → Option (List Char) :=
  fun k => if k = gs "K" then some (gs "x") else none

/-- Outcome agreement for pair-decoding loops. -/
def pairsOutcome (x : Except GErr (List (Val × Val))) (y : Except Unit (List (Val × Val))) : Prop :=
  match x, y with
  | .ok a, .ok b => a = b
  | .error _, .error _ => True
  | _, _ => False

/-- A required field resolved to the excluded name `APP_NAME`. -/
def fwX : Field :=
  { Name := gs "L", EnvKey := [gs "APP_NAME"], envVar := gs "APP_NAME",
    Tag := { EnvVar := gs "APP_NAME", Required := true } }

/-! ## Supporting lemmas -/

theorem splitChar_ne_nil (sep : Char) (s : List Char) : splitChar sep s ≠ [] := by
  cases s with
  | nil => simp [splitChar]
  | cons c cs =>
    simp only [splitChar]
    cases h : splitChar sep cs with
    | nil => simp
    | cons h t =>
      by_cases hc : c = sep <;> simp [hc]

theorem intercalateChar_splitChar (sep : Char) (s : List Char) :
    intercalateChar sep (splitChar sep s) = s := by
  induction s with
  | nil => rfl
  | cons c cs ih =>
    cases h : splitChar sep cs with
    | nil => exact absurd h (splitChar_ne_nil sep cs)
    | cons hd tl =>
      rw [h] at ih
      by_cases hc : c = sep
      · subst hc
        simp only [splitChar, h, if_pos rfl, intercalateChar]
        cases tl <;> simp_all [intercalateChar]
      · simp only [splitChar, h, if_neg hc]
        cases tl <;> simp_all [intercalateChar]

theorem takeToClose_length {s content after : List Char}
    (h : takeToClose s = some (content, after)) : after.length < s.length := by
  induction s generalizing content after with
  | nil => simp [takeToClose] at h
  | cons c rest ih =>
    simp only [takeToClose] at h
    by_cases hc : c = ')'
    · simp only [hc, if_pos rfl] at h
      cases h
      simp
    · rw [if_neg hc] at h
      by_cases hn : c = '\n'
      · simp [hn] at h
      · rw [if_neg hn] at h
        cases htc : takeToClose rest with
        | none => rw [htc] at h; cases h
        | some p =>
          rw [htc] at h
          cases p with
          | mk content' after' =>
            cases h
            have := ih htc
            simp only [List.length_cons]
            omega

theorem intercalateChar_cons (sep : Char) (x : List Char) (l : List (List Char))
    (h : l ≠ []) :
    intercalateChar sep (x :: l) = x ++ sep :: intercalateChar sep l := by
  cases l with
  | nil => exact absurd rfl h
  | cons y t => rfl

/-! ## Claim theorems -/

/-- C8: the camel-case segmentation function satisfies
`CamelSplit "FOOBar" = ["FOO", "Bar"]`, `CamelSplit "fooBar" = ["foo", "Bar"]`
and `CamelSplit "" = []`. -/
theorem c8_camel_split :
    CamelSplit (gs "FOOBar") = [gs "FOO", gs "Bar"] ∧
    CamelSplit (gs "fooBar") = [gs "foo", gs "Bar"] ∧
    CamelSplit (gs "") = [] := by
  refine ⟨by decide, by decide, by decide⟩

/-- C7: a bracketed default micro-syntax value is stored in normalized
canonical form: `default:list(a;b;c;d)` stores `a,b,c,d` and
`default:map(k1|v1;k2|v2)` stores `k1:v1,k2:v2`. -/
theorem c7_default_normalization :
    ParseTag (gs "default:list(a;b;c;d)") =
      .ok { IsDefault := true, Default := gs "a,b,c,d" } ∧
    ParseTag (gs "default:map(k1|v1;k2|v2)") =
      .ok { IsDefault := true, Default := gs "k1:v1,k2:v2" } := by
  refine ⟨by decide, by decide⟩

/-- C3 (claim is right, src/tag.go is wrong): `ParseTag` in src/tag.go
compares the bare-flag tokens and the keys of `key:value` pairs without
trimming (only the value is trimmed), so `" required"` is not recognized as
`required` and `" env: FOO"` does not set the env key; the repo's own
`TestParseTag_Success` case "all settings with leading space" expects the
trimmed reading.  This theorem evaluates the code at the failing inputs. -/
theorem c3_untrimmed_tokens :
    ParseTag (gs "env:FOO_BAR, required") = .ok { EnvVar := gs "FOO_BAR" } ∧
    ParseTag (gs " env: FOO") = .ok {} ∧
    ParseTag (gs "  env:FOO_BAR, default:XYZ, no-print,mask, no-prefix,    required") =
      .ok { Mask := true } ∧
    ParseTag (gs "env:FOO_BAR,required") = .ok { EnvVar := gs "FOO_BAR", Required := true } := by
  refine ⟨by decide, by decide, by decide, by decide⟩

/-- C4 (claim is right, src/field.go is wrong): when recursive discovery of
an embedded struct fails, `Fields` in src/field.go wraps the inner error with
the phrase `Collect failed for embedded struct`, not the phrase
`Fields failed for embedded struct` that the claim (and the repo's
`TestFields_EmbeddedStruct_Failure`) expects; the wrapped error does name the
inner field.  This theorem evaluates the code at the failing input. -/
theorem c4_embedded_wrap_message :
    Fields (.ptrTo (.strct false
        (.cons (gs "Foo") (gs "") true
          (.strct false (.cons (gs "IsFlag") (gs "env:,default:xys") true (.leaf .tbool) .nil))
        (.cons (gs "FieldA") (gs "env:Field") true (.leaf .tstr) .nil)))) [] =
      .error (gs "Collect failed for embedded struct: parseTag failed (IsFlag): tag (\"env\") missing a value") ∧
    containsSub (gs "Fields failed for embedded struct")
      (gs "Collect failed for embedded struct: parseTag failed (IsFlag): tag (\"env\") missing a value") = false ∧
    containsSub (gs "Collect failed for embedded struct")
      (gs "Collect failed for embedded struct: parseTag failed (IsFlag): tag (\"env\") missing a value") = true ∧
    containsSub (gs "IsFlag")
      (gs "Collect failed for embedded struct: parseTag failed (IsFlag): tag (\"env\") missing a value") = true := by
  refine ⟨by decide, by decide, by decide, by decide⟩

/-- C1 counterexample: for a field with an explicit env override under the
ancestor prefix chain `["My", "Sub"]`, the claim predicts the resolved key
`MY_SUB_FOO` (the entire chain joined with underscores, then the override),
but the code resolves `MY_FOO`: only the first element of the chain survives
in `NewField`. -/
theorem c1_counterexample :
    (Fields (.ptrTo (.strct false
        (.cons (gs "Sub") (gs "") true
          (.strct false (.cons (gs "Host") (gs "env:FOO") true (.leaf .tstr) .nil))
        .nil))) [gs "My"]).map (List.map Field.envVar) = .ok [gs "MY_FOO"] ∧
    toUpperG (intercalateChar '_' [gs "My", gs "Sub", gs "FOO"]) = gs "MY_SUB_FOO" ∧
    gs "MY_FOO" ≠ gs "MY_SUB_FOO" := by
  refine ⟨by decide, by decide, by decide⟩

/-- C1 amended: with an explicit env override and a nonempty field-key chain,
the resolved key keeps only the first element of the chain: it is the
upper-casing of `chainHead ++ "_" ++ override` when `no-prefix` is unset, and
the upper-casing of the override alone (not the override verbatim) when
`no-prefix` is set. -/
theorem c1_amended (name k : List Char) (ks : List (List Char)) (opts : Tag)
    (hov : opts.EnvVar ≠ []) :
    (opts.NoPfx = false →
      (NewField name (k :: ks) opts).envVar = toUpperG (k ++ '_' :: opts.EnvVar)) ∧
    (opts.NoPfx = true →
      (NewField name (k :: ks) opts).envVar = toUpperG opts.EnvVar) := by
  constructor
  · intro hnp
    simp only [NewField, if_pos hov, hnp, Bool.false_eq_true, if_false, List.headD_cons]
    rw [intercalateChar_cons _ _ _ (splitChar_ne_nil _ _), intercalateChar_splitChar]
  · intro hnp
    simp only [NewField, if_pos hov, hnp, if_true]
    rw [intercalateChar_splitChar]

/-- Witness for `c1_amended` at the counterexample's input. -/
theorem c1_amended_witness :
    (Tag.EnvVar { EnvVar := gs "FOO" } ≠ []) ∧
    ((Tag.NoPfx { EnvVar := gs "FOO" } = false →
        (NewField (gs "Host") (gs "My" :: [gs "Sub"]) { EnvVar := gs "FOO" }).envVar =
          toUpperG (gs "My" ++ '_' :: Tag.EnvVar { EnvVar := gs "FOO" })) ∧
     (Tag.NoPfx { EnvVar := gs "FOO" } = true →
        (NewField (gs "Host") (gs "My" :: [gs "Sub"]) { EnvVar := gs "FOO" }).envVar =
          toUpperG (Tag.EnvVar { EnvVar := gs "FOO" }))) :=
  ⟨by decide, c1_amended (gs "Host") (gs "My") [gs "Sub"] { EnvVar := gs "FOO" } (by decide)⟩

/-- C5: for a field with no source entry and no default, the env resolver
fails with the `MissingRequiredValue` message naming the field and its
resolved key exactly when the field is required; otherwise the field is
skipped and its destination value is unchanged. -/
theorem c5_missing_no_default (env : List Char → Option (List Char)) (f : Field)
    (ty : Ty) (old : Val)
    (h1 : f.envVar ≠ []) (h2 : env f.envVar = none) (h3 : f.IsDefault = false) :
    (f.IsRequired = true →
      ProcessEnvFields env [⟨f, ty, old⟩] = .error (missingRequiredMsg f.Name f.envVar)) ∧
    (f.IsRequired = false → ProcessEnvFields env [⟨f, ty, old⟩] = .ok [old]) ∧
    f.Name <:+: missingRequiredMsg f.Name f.envVar ∧
    f.envVar <:+: missingRequiredMsg f.Name f.envVar := by
  have h3' : f.Tag.IsDefault = false := h3
  refine ⟨?_, ?_, ?_, ?_⟩
  · intro hr
    have hr' : f.Tag.Required = true := hr
    simp [ProcessEnvFields, Field.EnvVariable, h1, h2, h3, h3', hr, hr']
  · intro hr
    have hr' : f.Tag.Required = false := hr
    simp [ProcessEnvFields, Field.EnvVariable, h1, h2, h3, h3', hr, hr']
  · exact ⟨gs "required key (", gs "," ++ f.envVar ++ gs ") missing value",
      by simp [missingRequiredMsg, gs]⟩
  · exact ⟨gs "required key (" ++ f.Name ++ gs ",", gs ") missing value",
      by simp [missingRequiredMsg, gs]⟩

/-- Witness for `c5_missing_no_default` at the spec's scenario. -/
theorem c5_witness :
    (fw5.envVar ≠ [] ∧ envNone fw5.envVar = none ∧ fw5.IsDefault = false) ∧
    ((fw5.IsRequired = true →
       ProcessEnvFields envNone [⟨fw5, .tstr, .vstr []⟩] =
         .error (missingRequiredMsg fw5.Name fw5.envVar)) ∧
     (fw5.IsRequired = false →
       ProcessEnvFields envNone [⟨fw5, .tstr, .vstr []⟩] = .ok [.vstr []]) ∧
     fw5.Name <:+: missingRequiredMsg fw5.Name fw5.envVar ∧
     fw5.envVar <:+: missingRequiredMsg fw5.Name fw5.envVar) :=
  ⟨⟨by decide, rfl, by decide⟩,
   c5_missing_no_default envNone fw5 .tstr (.vstr []) (by decide) rfl (by decide)⟩

/-- C2 counterexample: the keyed backend maps the field's key to the empty
string and the field declares default `d`, yet `ProcessEnv` decodes the empty
string into the field instead of substituting the default: a present-but-empty
entry counts as present. -/
theorem c2_counterexample :
    ProcessEnvFields envEmptyK [⟨fw2, .tstr, .vstr (gs "x")⟩] = .ok [.vstr []] ∧
    (Except.ok [Val.vstr []] : Except GErr (List Val)) ≠ .ok [.vstr fw2.DefaultValue] := by
  constructor
  · rfl
  · intro h
    injection h with h1
    injection h1 with h2 h3
    injection h2 with h4
    exact absurd h4 (by decide)

/-- C2 amended: `ProcessEnv` treats a keyed entry as present whenever the
lookup succeeds — even with the empty string as value the looked-up string is
decoded and the default is not substituted — while `ProcessCLI` substitutes
the default whenever the selected raw value is empty. -/
theorem c2_amended :
    (∀ (env : List Char → Option (List Char)) (f : Field) (old : Val) (v : List Char),
      f.envVar ≠ [] → env f.envVar = some v →
      ProcessEnvFields env [⟨f, .tstr, old⟩] = .ok [.vstr v]) ∧
    (∀ (src : CLISources) (f : Field) (old : Val),
      f.CLIFlagName = [] → f.envVar ≠ [] → f.envVar ≠ gs "-" →
      src.envLookup f.envVar = some [] → f.IsDefault = true →
      ProcessCLIFields src [⟨f, .tstr, old⟩] = ([], [.vstr f.DefaultValue])) := by
  constructor
  · intro env f old v h1 h2
    simp [ProcessEnvFields, Field.EnvVariable, h1, h2, ProcessField, processFieldAux]
  · intro src f old hflag h1 hdash henv hdef
    have hflag' : f.Tag.CLIFlagV = [] := hflag
    have hdef' : f.Tag.IsDefault = true := hdef
    have hsel : cliSelectValue src f = [] := by
      simp only [cliSelectValue, Field.EnvVariable, Field.CLIFlagName, Field.BindName]
      cases hfl : src.flagLookup f.Tag.CLIFlagV with
      | none => simp [h1, hdash, henv]
      | some p =>
        cases p with
        | mk fv changed => simp [hflag', h1, hdash, henv]
    simp [ProcessCLIFields, processCLIOne, hsel, hdef', Field.IsDefault, Field.DefaultValue,
      ProcessField, processFieldAux]

/-- Witness for `c2_amended`: the env part at the present-but-empty entry of
the counterexample, and the CLI part at the same sources, where the default
is substituted. -/
theorem c2_amended_witness :
    (fw2.envVar ≠ [] ∧ envEmptyK fw2.envVar = some [] ∧
      fw2.CLIFlagName = [] ∧ fw2.envVar ≠ gs "-" ∧ fw2.IsDefault = true) ∧
    ProcessEnvFields envEmptyK [⟨fw2, .tstr, .vstr (gs "x")⟩] = .ok [.vstr []] ∧
    ProcessCLIFields srcW2 [⟨fw2, .tstr, .vstr (gs "x")⟩] = ([], [.vstr fw2.DefaultValue]) :=
  ⟨⟨by decide, rfl, by decide, by decide, by decide⟩,
   c2_amended.1 envEmptyK fw2 (.vstr (gs "x")) [] (by decide) rfl,
   c2_amended.2 srcW2 fw2 (.vstr (gs "x")) (by decide) (by decide) (by decide) rfl (by decide)⟩

theorem processFieldAux_false_idem {t : Ty} {value : List Char} {old w : Val}
    (h : processFieldAux false t value old = .ok w) :
    processFieldAux false t value w = .ok w := by
  cases t with
  | tstr => simp only [processFieldAux] at h ⊢; exact h
  | tbool => simp only [processFieldAux] at h ⊢; exact h
  | tslice e => simp only [processFieldAux] at h ⊢; exact h
  | tmap k v => simp only [processFieldAux] at h ⊢; exact h
  | tptr u =>
    simp only [processFieldAux] at h ⊢

/-- A successful decode is a fixed point: decoding the same raw string into
the freshly decoded destination produces the same value again. -/
theorem processField_idem {value : List Char} {ty : Ty} {old w : Val}
    (h : ProcessField value ty old = .ok w) : ProcessField value ty w = .ok w := by
  cases ty with
  | tstr => simp only [ProcessField, processFieldAux] at h ⊢; exact h
  | tbool => simp only [ProcessField, processFieldAux] at h ⊢; exact h
  | tslice e => simp only [ProcessField, processFieldAux] at h ⊢; exact h
  | tmap k v => simp only [ProcessField, processFieldAux] at h ⊢; exact h
  | tptr t =>
    simp only [ProcessField, processFieldAux] at h ⊢
    generalize hoe : (match old with | Val.vptr (some p) => p | _ => zeroVal t) = oldElem at h
    cases hps : processFieldAux false t value oldElem with
    | error e => rw [hps] at h; exact absurd h (by simp)
    | ok x =>
      rw [hps] at h
      injection h with h1
      subst h1
      show (match processFieldAux false t value x with
            | Except.error e => Except.error e
            | Except.ok v => Except.ok (Val.vptr (some v))) = Except.ok (Val.vptr (some x))
      rw [processFieldAux_false_idem hps]

/-- C9: resolution is idempotent — if a pass of the env resolver succeeds
with final values `out`, running it again over the destinations holding `out`
succeeds with exactly `out` again. -/
theorem c9_idempotent (env : List Char → Option (List Char)) :
    ∀ (slots : List Slot) (out : List Val),
      ProcessEnvFields env slots = .ok out →
      ProcessEnvFields env (reassign slots out) = .ok out := by
  intro slots
  induction slots with
  | nil =>
    intro out h
    have h' : Except.ok (ε := GErr) ([] : List Val) = .ok out := h
    injection h' with hw
  | cons s rest ih =>
    intro out h
    by_cases he : s.fld.EnvVariable = []
    · simp [ProcessEnvFields, he] at h
    · cases hv : env s.fld.EnvVariable with
      | some value =>
        simp only [ProcessEnvFields, if_neg he, hv] at h
        cases hpf : ProcessField value s.ty s.val with
        | error e => rw [hpf] at h; exact absurd h (by simp)
        | ok v =>
          rw [hpf] at h
          cases hrest : ProcessEnvFields env rest with
          | error e => rw [hrest] at h; exact absurd h (by simp)
          | ok vs =>
            rw [hrest] at h
            injection h with h1
            subst h1
            have hih := ih vs hrest
            simp only [reassign] at hih
            simp only [reassign, List.zipWith, ProcessEnvFields, if_neg he, hv,
              processField_idem hpf, hih]
      | none =>
        simp only [ProcessEnvFields, if_neg he, hv] at h
        by_cases hd : s.fld.IsDefault = true
        · rw [if_pos hd] at h
          cases hpf : ProcessField s.fld.DefaultValue s.ty s.val with
          | error e => rw [hpf] at h; exact absurd h (by simp)
          | ok v =>
            rw [hpf] at h
            cases hrest : ProcessEnvFields env rest with
            | error e => rw [hrest] at h; exact absurd h (by simp)
            | ok vs =>
              rw [hrest] at h
              injection h with h1
              subst h1
              have hih := ih vs hrest
              simp only [reassign] at hih
              simp only [reassign, List.zipWith, ProcessEnvFields, if_neg he, hv, if_pos hd,
                processField_idem hpf, hih]
        · rw [if_neg hd] at h
          by_cases hr : s.fld.IsRequired = true
          · rw [if_pos hr] at h; exact absurd h (by simp)
          · rw [if_neg hr] at h
            cases hrest : ProcessEnvFields env rest with
            | error e => rw [hrest] at h; exact absurd h (by simp)
            | ok vs =>
              rw [hrest] at h
              injection h with h1
              subst h1
              have hih := ih vs hrest
              simp only [reassign] at hih
              simp only [reassign, List.zipWith, ProcessEnvFields, if_neg he, hv, if_neg hd,
                if_neg hr, hih]

/-- Witness for `c9_idempotent`: a successful one-field pass and its repeat. -/
theorem c9_witness :
    ProcessEnvFields envW9 [⟨fw2, .tstr, .vstr []⟩] = .ok [.vstr (gs "x")] ∧
    ProcessEnvFields envW9 (reassign [⟨fw2, .tstr, .vstr []⟩] [.vstr (gs "x")]) =
      .ok [.vstr (gs "x")] :=
  ⟨rfl, c9_idempotent envW9 [⟨fw2, .tstr, .vstr []⟩] [.vstr (gs "x")] rfl⟩

theorem splitChar_length (sep : Char) (s : List Char) :
    (splitChar sep s).length = s.count sep + 1 := by
  induction s with
  | nil => simp [splitChar]
  | cons c cs ih =>
    simp only [splitChar]
    cases h : splitChar sep cs with
    | nil => exact absurd h (splitChar_ne_nil sep cs)
    | cons hd tl =>
      rw [h] at ih
      by_cases hc : c = sep
      · subst hc
        simp only [if_pos rfl, List.length_cons, List.count_cons]
        simp at ih ⊢
        omega
      · simp only [if_neg hc, List.length_cons, List.count_cons]
        simp [hc] at ih ⊢
        omega

theorem splitChar_singleton {sep : Char} {s x : List Char}
    (h : splitChar sep s = [x]) : x = s := by
  induction s generalizing x with
  | nil =>
    simp only [splitChar] at h
    injection h with h1 h2
    exact h1.symm
  | cons c cs ih =>
    simp only [splitChar] at h
    cases hsc : splitChar sep cs with
    | nil => exact absurd hsc (splitChar_ne_nil sep cs)
    | cons hd tl =>
      simp only [hsc] at h
      by_cases hc : c = sep
      · rw [if_pos hc] at h
        exact absurd h (by simp)
      · rw [if_neg hc] at h
        injection h with h1 h2
        subst h2
        have hcs := ih hsc
        rw [← h1, hcs]

theorem splitChar_pair_splitAtFirst {sep : Char} {s a b : List Char}
    (h : splitChar sep s = [a, b]) : splitAtFirst sep s = (a, b) := by
  induction s generalizing a with
  | nil =>
    simp only [splitChar] at h
    exact absurd h (by simp)
  | cons c cs ih =>
    simp only [splitChar] at h
    cases hsc : splitChar sep cs with
    | nil => exact absurd hsc (splitChar_ne_nil sep cs)
    | cons hd tl =>
      simp only [hsc] at h
      by_cases hc : c = sep
      · rw [if_pos hc] at h
        injection h with h1 h2
        injection h2 with h3 h4
        subst h4
        have hcs := splitChar_singleton hsc
        subst hc
        rw [hcs] at h3
        simp [splitAtFirst, ← h1, ← h3]
      · rw [if_neg hc] at h
        injection h with h1 h2
        rw [h2] at hsc
        have ihr := ih hsc
        have ih1 : cs.takeWhile (· ≠ sep) = hd := by
          have := congrArg Prod.fst ihr
          simpa [splitAtFirst] using this
        have ih2 : (cs.dropWhile (· ≠ sep)).drop 1 = b := by
          have := congrArg Prod.snd ihr
          simpa [splitAtFirst] using this
        simp [splitAtFirst, List.takeWhile_cons, List.dropWhile_cons, hc, ← h1]
        constructor
        · simpa [ne_eq, decide_not] using ih1
        · simpa [ne_eq, decide_not, List.drop_one] using ih2

theorem decodePairs_agree (keyTy valTy : Ty) :
    ∀ (pairs : List (List Char)) (acc : List (Val × Val)),
      pairsOutcome
        (decodePairs (fun v o => processFieldAux true keyTy v o)
          (fun v o => processFieldAux true valTy v o)
          (zeroVal keyTy) (zeroVal valTy) acc pairs)
        (specMapPairsDecode keyTy valTy acc pairs) := by
  intro pairs
  induction pairs with
  | nil => intro acc; simp [decodePairs, specMapPairsDecode, pairsOutcome]
  | cons pair rest ih =>
    intro acc
    simp only [decodePairs, specMapPairsDecode]
    cases hsp : splitChar ':' pair with
    | nil => exact absurd hsp (splitChar_ne_nil _ _)
    | cons k tl =>
      cases tl with
      | nil =>
        have hc : ¬ pair.count ':' = 1 := by
          have hl := splitChar_length ':' pair
          rw [hsp] at hl
          simp at hl
          omega
        rw [if_neg hc]
        simp [pairsOutcome]
      | cons v tl2 =>
        cases tl2 with
        | nil =>
          have hc : pair.count ':' = 1 := by
            have hl := splitChar_length ':' pair
            rw [hsp] at hl
            simp at hl
            omega
          have hsf := splitChar_pair_splitAtFirst hsp
          rw [if_pos hc, hsf]
          simp only [ProcessField]
          cases hk : processFieldAux true keyTy k (zeroVal keyTy) with
          | error e => simp [pairsOutcome, hk]
          | ok kv =>
            cases hv : processFieldAux true valTy v (zeroVal valTy) with
            | error e => simp [pairsOutcome, hk, hv]
            | ok vv =>
              simp only [hk, hv]
              exact ih (mapSet acc kv vv)
        | cons w tl3 =>
          have hc : ¬ pair.count ':' = 1 := by
            have hl := splitChar_length ':' pair
            rw [hsp] at hl
            simp at hl
            omega
          rw [if_neg hc]
          simp [pairsOutcome]

theorem mapArm_agree (keyTy valTy : Ty) (raw : List Char) :
    sameOutcome
      (if trimSpace raw = [] then Except.ok (Val.vmap [])
       else
         match decodePairs (fun v o => processFieldAux true keyTy v o)
             (fun v o => processFieldAux true valTy v o)
             (zeroVal keyTy) (zeroVal valTy) [] (splitChar ',' raw) with
         | .error e => .error e
         | .ok entries => .ok (.vmap entries))
      (specMapDecode keyTy valTy raw) := by
  by_cases ht : trimSpace raw = []
  · simp [ht, specMapDecode, sameOutcome]
  · rw [if_neg ht]
    unfold specMapDecode
    rw [if_neg ht]
    have h := decodePairs_agree keyTy valTy (splitChar ',' raw) []
    cases hcode : decodePairs (fun v o => processFieldAux true keyTy v o)
        (fun v o => processFieldAux true valTy v o)
        (zeroVal keyTy) (zeroVal valTy) [] (splitChar ',' raw) with
    | error e =>
      rw [hcode] at h
      cases hspec : specMapPairsDecode keyTy valTy [] (splitChar ',' raw) with
      | error e2 => simp [sameOutcome]
      | ok l => rw [hspec] at h; exact absurd h (by simp [pairsOutcome])
    | ok entries =>
      rw [hcode] at h
      cases hspec : specMapPairsDecode keyTy valTy [] (splitChar ',' raw) with
      | error e2 => rw [hspec] at h; exact absurd h (by simp [pairsOutcome])
      | ok l =>
        rw [hspec] at h
        simp only [pairsOutcome] at h
        simp [sameOutcome, h]

/-- C6: on a mapping destination, the engine's decoder agrees with the
spec-transcribed decoder: empty or whitespace-only raw input yields an empty
mapping; otherwise the input is split on `,` into pairs, a pair without
exactly one `:` separator is a decode failure, and otherwise each pair is
split at its `:` and both sides are recursively decoded into the mapping's
key and value types. -/
theorem c6_map_decode (keyTy valTy : Ty) (raw : List Char) (old : Val) :
    sameOutcome (ProcessField raw (.tmap keyTy valTy) old) (specMapDecode keyTy valTy raw) := by
  have h := mapArm_agree keyTy valTy raw
  simpa only [ProcessField, processFieldAux] using h

theorem envNames_dropExcluded (fields : List Field) :
    EnvNames (dropExcluded fields) = EnvNames fields := by
  induction fields with
  | nil => rfl
  | cons f rest ih =>
    by_cases hex : f.EnvVariable ∈ excludedVars
    · have hd : dropExcluded (f :: rest) = dropExcluded rest := by
        simp [dropExcluded, hex]
      rw [hd, ih]
      by_cases hdash : f.EnvVariable = gs "-" <;> simp [EnvNames, hex, hdash]
    · have hd : dropExcluded (f :: rest) = f :: dropExcluded rest := by
        simp [dropExcluded, hex]
      rw [hd]
      by_cases hdash : f.EnvVariable = gs "-" <;> simp [EnvNames, hex, hdash, ih]

theorem excluded_not_mem_envNames {e : List Char} (he : e ∈ excludedVars) :
    ∀ fields : List Field, e ∉ EnvNames fields := by
  intro fields
  induction fields with
  | nil => simp [EnvNames]
  | cons f rest ih =>
    by_cases hdash : f.EnvVariable = gs "-"
    · simpa [EnvNames, hdash] using ih
    · by_cases hex : f.EnvVariable ∈ excludedVars
      · simpa [EnvNames, hdash, hex] using ih
      · simp only [EnvNames, if_neg hdash, if_neg hex, List.mem_cons]
        rintro (hEq | hmem)
        · exact hex (hEq ▸ he)
        · exact ih hmem

theorem envToMapGo_dropExcluded (env : List Char → Option (List Char)) :
    ∀ (fields : List Field) (acc : List (List Char × List Char)),
      envToMapGo env acc (dropExcluded fields) = envToMapGo env acc fields := by
  intro fields
  induction fields with
  | nil => intro acc; rfl
  | cons f rest ih =>
    intro acc
    by_cases hex : f.EnvVariable ∈ excludedVars
    · have hd : dropExcluded (f :: rest) = dropExcluded rest := by
        simp [dropExcluded, hex]
      rw [hd, ih]
      by_cases hdash : f.EnvVariable = gs "-" <;> simp [envToMapGo, hex, hdash]
    · have hd : dropExcluded (f :: rest) = f :: dropExcluded rest := by
        simp [dropExcluded, hex]
      rw [hd]
      by_cases hdash : f.EnvVariable = gs "-"
      · simp [envToMapGo, hdash, ih]
      · by_cases hemp : f.EnvVariable = []
        · simp only [envToMapGo, if_neg hdash, if_neg hex, if_pos hemp]
        · cases henv : env f.EnvVariable with
          | some value => simp [envToMapGo, hdash, hex, hemp, henv, ih]
          | none =>
            by_cases hdef : f.IsDefault = true
            · simp [envToMapGo, hdash, hex, hemp, henv, hdef, ih]
            · by_cases hreq : f.IsRequired = true
              · simp [envToMapGo, hdash, hex, hemp, henv, hdef, hreq]
              · simp [envToMapGo, hdash, hex, hemp, henv, hdef, hreq, ih]

theorem collectParamsGo_dropExcluded (appTitle : List Char)
    (env : List Char → Option (List Char)) (skipDefaults : Bool) :
    ∀ (fields : List Field) (acc : List (List Char × List Char)),
      collectParamsGo appTitle env skipDefaults acc (dropExcluded fields) =
        collectParamsGo appTitle env skipDefaults acc fields := by
  intro fields
  induction fields with
  | nil => intro acc; rfl
  | cons f rest ih =>
    intro acc
    by_cases hex : f.EnvVariable ∈ excludedVars
    · have hd : dropExcluded (f :: rest) = dropExcluded rest := by
        simp [dropExcluded, hex]
      rw [hd, ih]
      have hemp : ¬ f.EnvVariable = [] := by
        intro hcontra
        rw [hcontra] at hex
        exact absurd hex (by decide)
      by_cases hdash : f.EnvVariable = gs "-" ∨ PStoreKey f appTitle f.EnvVariable = gs "-"
      · simp [collectParamsGo, hdash]
      · simp [collectParamsGo, hdash, hemp, hex]
    · have hd : dropExcluded (f :: rest) = f :: dropExcluded rest := by
        simp [dropExcluded, hex]
      rw [hd]
      by_cases hdash : f.EnvVariable = gs "-" ∨ PStoreKey f appTitle f.EnvVariable = gs "-"
      · simp [collectParamsGo, hdash, ih]
      · by_cases hemp : f.EnvVariable = []
        · simp only [collectParamsGo, if_neg hdash, if_pos hemp]
        · cases henv : env f.EnvVariable with
          | some value => simp [collectParamsGo, hdash, hemp, hex, henv, ih]
          | none =>
            by_cases hdef : f.IsDefault = true
            · cases skipDefaults <;>
                simp [collectParamsGo, hdash, hemp, hex, henv, hdef, ih]
            · by_cases hreq : f.IsRequired = true
              · simp [collectParamsGo, hdash, hemp, hex, henv, hdef, hreq]
              · simp [collectParamsGo, hdash, hemp, hex, henv, hdef, hreq, ih]

theorem strMapLookup_strMapSet_ne {k e v : List Char} (h : k ≠ e) :
    ∀ acc, strMapLookup (strMapSet acc k v) e = strMapLookup acc e := by
  intro acc
  induction acc with
  | nil => simp [strMapSet, strMapLookup, h]
  | cons p rest ih =>
    cases p with
    | mk k0 v0 =>
      by_cases hk : k0 = k
      · subst hk
        simp [strMapSet, strMapLookup, h]
      · simp only [strMapSet, if_neg hk]
        by_cases he0 : k0 = e <;> simp [strMapLookup, he0, ih]

theorem envToMapGo_lookup_none {e : List Char} (he : e ∈ excludedVars)
    (env : List Char → Option (List Char)) :
    ∀ (fields : List Field) (acc m : List (List Char × List Char)),
      strMapLookup acc e = none → envToMapGo env acc fields = .ok m →
      strMapLookup m e = none := by
  intro fields
  induction fields with
  | nil =>
    intro acc m hacc h
    have h' : Except.ok (ε := GErr) acc = .ok m := h
    rw [← Except.ok.inj h']
    exact hacc
  | cons f rest ih =>
    intro acc m hacc h
    by_cases hdash : f.EnvVariable = gs "-"
    · exact ih acc m hacc (by simpa [envToMapGo, hdash] using h)
    · by_cases hex : f.EnvVariable ∈ excludedVars
      · exact ih acc m hacc (by simpa [envToMapGo, hdash, hex] using h)
      · have hne : f.EnvVariable ≠ e := fun hEq => hex (hEq ▸ he)
        by_cases hemp : f.EnvVariable = []
        · simp only [envToMapGo, if_neg hdash, if_neg hex, if_pos hemp] at h
          exact absurd h (by simp)
        · cases henv : env f.EnvVariable with
          | some value =>
            have h2 : envToMapGo env (strMapSet acc f.EnvVariable value) rest = .ok m := by
              simpa [envToMapGo, hdash, hex, hemp, henv] using h
            exact ih _ m (by rw [strMapLookup_strMapSet_ne hne]; exact hacc) h2
          | none =>
            by_cases hdef : f.IsDefault = true
            · have h2 : envToMapGo env (strMapSet acc f.EnvVariable f.DefaultValue) rest =
                  .ok m := by
                simpa [envToMapGo, hdash, hex, hemp, henv, hdef] using h
              exact ih _ m (by rw [strMapLookup_strMapSet_ne hne]; exact hacc) h2
            · by_cases hreq : f.IsRequired = true
              · simp [envToMapGo, hdash, hex, hemp, henv, hdef, hreq] at h
              · have h2 : envToMapGo env (strMapSet acc f.EnvVariable []) rest = .ok m := by
                  simpa [envToMapGo, hdash, hex, hemp, henv, hdef, hreq] using h
                exact ih _ m (by rw [strMapLookup_strMapSet_ne hne]; exact hacc) h2

/-- C10: a field whose resolved env name is one of the excluded variables
(`APP_NAME`, `AWS_PROFILE`, `AWS_REGION`, `AWS_LAMBDA_FUNCTION_NAME`) is
silently skipped by `EnvNames`, `EnvToMap` and `CollectParamsFromEnv`: the
excluded name never appears in the name list or in the map's keys, and
removing all excluded fields changes no result — in particular no source is
consulted for them and no error is raised for them, required or not. -/
theorem c10_excluded_skip (e : List Char) (fields : List Field)
    (env : List Char → Option (List Char)) (appTitle : List Char) (skipDefaults : Bool)
    (he : e ∈ excludedVars) :
    e ∉ EnvNames fields ∧
    EnvNames (dropExcluded fields) = EnvNames fields ∧
    EnvToMap env (dropExcluded fields) = EnvToMap env fields ∧
    (∀ m, EnvToMap env fields = .ok m → strMapLookup m e = none) ∧
    CollectParamsFromEnv appTitle env skipDefaults (dropExcluded fields) =
      CollectParamsFromEnv appTitle env skipDefaults fields := by
  refine ⟨excluded_not_mem_envNames he fields, envNames_dropExcluded fields,
    envToMapGo_dropExcluded env fields [], ?_, ?_⟩
  · intro m hm
    exact envToMapGo_lookup_none he env fields [] m rfl hm
  · unfold CollectParamsFromEnv
    by_cases hT : appTitle = []
    · simp [hT]
    · simp [hT, collectParamsGo_dropExcluded appTitle env skipDefaults fields []]

/-- Witness for `c10_excluded_skip` on a required `APP_NAME` field with an
empty environment. -/
theorem c10_witness :
    (gs "APP_NAME" ∈ excludedVars) ∧
    (gs "APP_NAME" ∉ EnvNames [fwX] ∧
     EnvNames (dropExcluded [fwX]) = EnvNames [fwX] ∧
     EnvToMap envNone (dropExcluded [fwX]) = EnvToMap envNone [fwX] ∧
     (∀ m, EnvToMap envNone [fwX] = .ok m → strMapLookup m (gs "APP_NAME") = none) ∧
     CollectParamsFromEnv (gs "t") envNone false (dropExcluded [fwX]) =
       CollectParamsFromEnv (gs "t") envNone false [fwX]) :=
  ⟨by decide, c10_excluded_skip (gs "APP_NAME") [fwX] envNone (gs "t") false (by decide)⟩

end Conf
